import Mathlib

/-!
Shallow embedding of the Trade Ledger and Pending-Order Settlement Engine
of `src/main.py` (STOCK_ANALYSIS_SYSTEM).

Modelling conventions:
* Prices are rationals (`ℚ`); Python floats are modelled exactly.
* `quantity` after `int(...)` parsing is an `Int` (sign checked separately).
* A ledger is the `transactions` table: a list of rows in insertion order
  (`timestamp` ascending).  `ORDER BY timestamp DESC` is `List.reverse`.
  The `timestamp` column itself carries no information used by the core,
  so it is not a field of the row.
* User inputs that Python parses with `int(...)` / `float(...)` are modelled
  as already-parsed values or a `malformed` marker (the `except` branch).
  `bid_price` may additionally be Python `None` (`absent`).
* `fetch_holdings` returns `none` for the column-less `pd.DataFrame()` the
  source returns when the user has no rows / no EXECUTED rows; accessing
  `holdings['stock_symbol']` on that frame raises `KeyError`, modelled by
  the `crash` outcome of `record_trade`.
* `nse_eq` price lookup (including any exception inside the sweep loop body)
  is a capability `String → Option ℚ`; `none` is "unavailable".
* `datetime.now().time()` is seconds since midnight (`Nat`); the 15:30 NSE
  cutoff `time(15, 30)` is `marketCloseCutoff`.
* `pandas.groupby` sorts its keys; the order of the holdings rows carries no
  information, so group keys are taken in first-occurrence order (`dedup`).
-/

-- Core marks `Rat` arithmetic irreducible, which blocks `decide`/`rfl`
-- evaluation of the executable definitions below at concrete rational inputs;
-- restoring the default reducibility lets the kernel compute with them.
set_option allowUnsafeReducibility true

attribute [semireducible] Rat.mul Rat.add Rat.sub Rat.neg Rat.div Rat.inv Rat.normalize

namespace SAS

inductive Action where
  | BUY
  | SELL
deriving DecidableEq, Repr

inductive Status where
  | EXECUTED
  | PENDING
  | CANCELLED
deriving DecidableEq, Repr

/-- One row of the `transactions` table. -/
structure TradeRow where
  id : Nat
  username : String
  stock_symbol : String
  action : Action
  quantity : Int
  price : ℚ
  total : ℚ
  bid_price : ℚ
  status : Status
deriving DecidableEq, Repr

/-- The `transactions` table, rows in insertion (timestamp) order. -/
structure Ledger where
  rows : List TradeRow
deriving DecidableEq, Repr

/-- Result of `int(quantity)`: a parsed integer or a parse failure. -/
inductive IntInput where
  | val (n : Int)
  | malformed
deriving DecidableEq, Repr

/-- Result of `float(price)`: a parsed number or a parse failure. -/
inductive NumInput where
  | val (q : ℚ)
  | malformed
deriving DecidableEq, Repr

/-- The `bid_price` argument: Python `None`, a parsed number, or a failure. -/
inductive BidInput where
  | absent
  | val (q : ℚ)
  | malformed
deriving DecidableEq, Repr

inductive TradeError where
  | InvalidInput
  | InsufficientHoldings
deriving DecidableEq, Repr

/-- Outcome of `record_trade`: a successful insert (new ledger and the stored
row), a reported validation error (`st.error`, no insert), or an uncaught
Python exception (`crash`, no insert). -/
inductive TradeOutcome where
  | ok (led : Ledger) (row : TradeRow)
  | err (e : TradeError)
  | crash
deriving DecidableEq, Repr

/-- SQLite AUTOINCREMENT id for the next inserted row. -/
def nextId (led : Ledger) : Nat :=
  (led.rows.map (fun r => r.id)).foldr max 0 + 1

/-- SELECT * FROM transactions WHERE username=? ORDER BY timestamp DESC. -/
def fetch_transactions (led : Ledger) (username : String) : List TradeRow :=
  (led.rows.filter (fun r => r.username = username)).reverse

/-- One row of the holdings DataFrame produced by `fetch_holdings`. -/
structure Holding where
  stock_symbol : String
  quantity : Int
  avgPrice : ℚ
deriving DecidableEq, Repr

/-- Signed quantity: + for BUY, - for SELL (the `qty_signed` helper). -/
def qty_signed (r : TradeRow) : Int :=
  if r.action = Action.BUY then r.quantity else -r.quantity

/-- The per-symbol aggregation done inside the `groupby(...).apply(...)`:
`x` is the group of executed rows whose `stock_symbol` is `sym`. -/
def holdingFor (df_exec : List TradeRow) (sym : String) : Holding :=
  let x := df_exec.filter (fun r => r.stock_symbol = sym)
  let buys := x.filter (fun r => r.action = Action.BUY)
  let buyQty : Int := (buys.map (fun r => r.quantity)).sum
  { stock_symbol := sym
    quantity := (x.map qty_signed).sum
    avgPrice :=
      if buyQty ≠ 0 then
        ((buys.map (fun r => (r.quantity : ℚ) * r.price)).sum) / (buyQty : ℚ)
      else 0 }

/-- `fetch_holdings`: summarize EXECUTED trades per symbol.  Returns `none`
for the column-less empty DataFrame (user has no rows, or no EXECUTED rows);
otherwise one `Holding` per distinct symbol of the executed rows. -/
def fetch_holdings (led : Ledger) (username : String) : Option (List Holding) :=
  let df := fetch_transactions led username
  if df.isEmpty then none
  else
    let df_exec := df.filter (fun r => r.status = Status.EXECUTED)
    if df_exec.isEmpty then none
    else some (((df_exec.map (fun r => r.stock_symbol)).dedup).map (holdingFor df_exec))

/-- The row built and INSERTed by `record_trade` once validation passed. -/
def mkRow (led : Ledger) (username stock_symbol : String) (action : Action)
    (q : Int) (p b : ℚ) : TradeRow :=
  { id := nextId led
    username := username
    stock_symbol := stock_symbol
    action := action
    quantity := q
    price := p
    total := (q : ℚ) * p
    bid_price := b
    status := if |p - b| < 1 / 100 then Status.EXECUTED else Status.PENDING }

/-- The INSERT at the end of `record_trade` (total and status computation
plus the append). -/
def insertTrade (led : Ledger) (username stock_symbol : String) (action : Action)
    (q : Int) (p b : ℚ) : TradeOutcome :=
  TradeOutcome.ok ⟨led.rows ++ [mkRow led username stock_symbol action q p b]⟩
    (mkRow led username stock_symbol action q p b)

/-- `record_trade(username, stock_symbol, action, quantity, price, bid_price)`.
Validation order follows the source: the `try` block parsing all three
numeric inputs (`bid_price` defaulting to `price` when `None`), then the
`quantity <= 0` check, then for SELL the holdings check, then the INSERT. -/
def record_trade (led : Ledger) (username stock_symbol : String) (action : Action)
    (quantity : IntInput) (price : NumInput) (bid_price : BidInput) : TradeOutcome :=
  match quantity with
  | IntInput.malformed => TradeOutcome.err TradeError.InvalidInput
  | IntInput.val q =>
    match price with
    | NumInput.malformed => TradeOutcome.err TradeError.InvalidInput
    | NumInput.val p =>
      match bid_price with
      | BidInput.malformed => TradeOutcome.err TradeError.InvalidInput
      | bin =>
        let b : ℚ := match bin with | BidInput.val x => x | _ => p
        if q ≤ 0 then TradeOutcome.err TradeError.InvalidInput
        else if action = Action.SELL then
          match fetch_holdings led username with
          | none => TradeOutcome.crash
          | some holdings =>
            match holdings.find? (fun h => h.stock_symbol = stock_symbol) with
            | none => TradeOutcome.err TradeError.InsufficientHoldings
            | some h =>
              if h.quantity < q then TradeOutcome.err TradeError.InsufficientHoldings
              else insertTrade led username stock_symbol action q p b
        else insertTrade led username stock_symbol action q p b

/-- NSE close `time(15, 30)` in seconds since midnight. -/
def marketCloseCutoff : Nat := 15 * 3600 + 30 * 60

/-- The SQL `UPDATE transactions SET ... WHERE id=?`: rewrites every row whose
`id` matches and reports the number of rows affected (which the source never
inspects). -/
def sqlUpdate (rows : List TradeRow) (id : Nat) (f : TradeRow → TradeRow) :
    List TradeRow × Nat :=
  (rows.map (fun r => if r.id = id then f r else r),
   (rows.filter (fun r => r.id = id)).length)

/-- The body of the per-pending-row loop of `update_pending_orders`, acting on
the current table `rows` for the snapshot row `row`. -/
def applyPendingUpdate (now : Nat) (lookup : String → Option ℚ)
    (rows : List TradeRow) (row : TradeRow) : List TradeRow :=
  match lookup row.stock_symbol with
  | none => rows
  | some p =>
    if (row.action = Action.BUY ∧ p ≤ row.bid_price) ∨
       (row.action = Action.SELL ∧ row.bid_price ≤ p) then
      (sqlUpdate rows row.id (fun r =>
        { r with status := Status.EXECUTED, price := p,
                 total := p * (row.quantity : ℚ) })).1
    else if marketCloseCutoff ≤ now then
      (sqlUpdate rows row.id (fun r => { r with status := Status.CANCELLED })).1
    else rows

/-- `update_pending_orders`: snapshot the PENDING rows, then run the loop. -/
def update_pending_orders (led : Ledger) (now : Nat)
    (lookup : String → Option ℚ) : Ledger :=
  let df_pending := led.rows.filter (fun r => r.status = Status.PENDING)
  ⟨df_pending.foldl (applyPendingUpdate now lookup) led.rows⟩

/-- What the sweep does to a single PENDING row (for stating properties):
execute if the bid condition is met, cancel after the cutoff, else no change. -/
def sweepRow (now : Nat) (lookup : String → Option ℚ) (r : TradeRow) : TradeRow :=
  match lookup r.stock_symbol with
  | none => r
  | some p =>
    if (r.action = Action.BUY ∧ p ≤ r.bid_price) ∨
       (r.action = Action.SELL ∧ r.bid_price ≤ p) then
      { r with status := Status.EXECUTED, price := p, total := p * (r.quantity : ℚ) }
    else if marketCloseCutoff ≤ now then { r with status := Status.CANCELLED }
    else r

/-- The ledger after a `record_trade` call: changed only on success. -/
def ledgerAfter (led : Ledger) (o : TradeOutcome) : Ledger :=
  match o with
  | TradeOutcome.ok led2 _ => led2
  | _ => led

/-- The two operations that touch the ledger. -/
inductive Op where
  | submit (username stock_symbol : String) (action : Action)
      (quantity : IntInput) (price : NumInput) (bid : BidInput)
  | sweep (now : Nat) (lookup : String → Option ℚ)

def applyOp (led : Ledger) : Op → Ledger
  | Op.submit u s a q p b => ledgerAfter led (record_trade led u s a q p b)
  | Op.sweep now lookup => update_pending_orders led now lookup

def applyOps (led : Ledger) (ops : List Op) : Ledger :=
  ops.foldl applyOp led

/-- Well-formedness maintained by SQLite's PRIMARY KEY: ids are distinct. -/
def ledgerWF (led : Ledger) : Prop :=
  (led.rows.map (fun r => r.id)).Nodup

instance (led : Ledger) : Decidable (ledgerWF led) := by
  unfold ledgerWF; infer_instance

/-- Row with a given id (the ledger's primary-key lookup). -/
def findRow (led : Ledger) (id : Nat) : Option TradeRow :=
  led.rows.find? (fun r => r.id = id)

/-- Spec-side direct selection: the EXECUTED rows of one user and symbol,
read straight off the table. -/
def execRows (led : Ledger) (username sym : String) : List TradeRow :=
  led.rows.filter (fun r =>
    r.username = username ∧ r.status = Status.EXECUTED ∧ r.stock_symbol = sym)

/-- Spec-side signed net quantity over the EXECUTED rows. -/
def execSignedQty (led : Ledger) (username sym : String) : Int :=
  ((execRows led username sym).map qty_signed).sum

/-- Spec-side BUY quantity sum over the EXECUTED rows. -/
def execBuyQty (led : Ledger) (username sym : String) : Int :=
  (((execRows led username sym).filter (fun r => r.action = Action.BUY)).map
    (fun r => r.quantity)).sum

/-- Spec-side BUY cost sum (Σ qty·price) over the EXECUTED rows. -/
def execBuyCost (led : Ledger) (username sym : String) : ℚ :=
  (((execRows led username sym).filter (fun r => r.action = Action.BUY)).map
    (fun r => (r.quantity : ℚ) * r.price)).sum

/-- The holdings row `fetch_holdings` reports for one symbol, if any. -/
def holdingsMap (led : Ledger) (username sym : String) : Option Holding :=
  ((fetch_holdings led username).getD []).find? (fun h => h.stock_symbol = sym)

/-- Effect of one iteration of the sweep loop (snapshot row `t`) on one table
row `r`: `sqlUpdate` touches `r` only when the ids match. -/
def rowUpd (now : Nat) (lookup : String → Option ℚ) (t r : TradeRow) : TradeRow :=
  match lookup t.stock_symbol with
  | none => r
  | some p =>
    if (t.action = Action.BUY ∧ p ≤ t.bid_price) ∨
       (t.action = Action.SELL ∧ t.bid_price ≤ p) then
      (if r.id = t.id then
        { r with status := Status.EXECUTED, price := p,
                 total := p * (t.quantity : ℚ) } else r)
    else if marketCloseCutoff ≤ now then
      (if r.id = t.id then { r with status := Status.CANCELLED } else r)
    else r

theorem applyPendingUpdate_eq_map (now : Nat) (lookup : String → Option ℚ)
    (rows : List TradeRow) (t : TradeRow) :
    applyPendingUpdate now lookup rows t = rows.map (rowUpd now lookup t) := by
  unfold applyPendingUpdate rowUpd sqlUpdate
  cases lookup t.stock_symbol with
  | none => simp
  | some p =>
    by_cases hc : (t.action = Action.BUY ∧ p ≤ t.bid_price) ∨
        (t.action = Action.SELL ∧ t.bid_price ≤ p)
    · simp [hc]
    · by_cases hn : marketCloseCutoff ≤ now <;> simp [hc, hn]

theorem foldl_applyPendingUpdate (now : Nat) (lookup : String → Option ℚ)
    (todo rows : List TradeRow) :
    todo.foldl (applyPendingUpdate now lookup) rows
      = rows.map (fun r => todo.foldl (fun x t => rowUpd now lookup t x) r) := by
  induction todo generalizing rows with
  | nil => simp
  | cons t ts ih =>
    rw [List.foldl_cons, ih, applyPendingUpdate_eq_map, List.map_map]
    rfl

theorem rowUpd_id (now : Nat) (lookup : String → Option ℚ) (t r : TradeRow) :
    (rowUpd now lookup t r).id = r.id := by
  unfold rowUpd
  cases lookup t.stock_symbol with
  | none => rfl
  | some p => dsimp only; split_ifs <;> rfl

theorem rowUpd_of_ne (now : Nat) (lookup : String → Option ℚ) {t r : TradeRow}
    (h : r.id ≠ t.id) : rowUpd now lookup t r = r := by
  unfold rowUpd
  cases lookup t.stock_symbol with
  | none => rfl
  | some p => simp [h]

theorem rowUpd_self (now : Nat) (lookup : String → Option ℚ) (r : TradeRow) :
    rowUpd now lookup r r = sweepRow now lookup r := by
  unfold rowUpd sweepRow
  cases lookup r.stock_symbol with
  | none => rfl
  | some p => simp

theorem sweepRow_id (now : Nat) (lookup : String → Option ℚ) (r : TradeRow) :
    (sweepRow now lookup r).id = r.id := by
  unfold sweepRow
  cases lookup r.stock_symbol with
  | none => rfl
  | some p => dsimp only; split_ifs <;> rfl

theorem sweepRow_cases (now : Nat) (lookup : String → Option ℚ) (r : TradeRow) :
    sweepRow now lookup r = r ∨
      ((sweepRow now lookup r).status = Status.EXECUTED ∨
       (sweepRow now lookup r).status = Status.CANCELLED) := by
  unfold sweepRow
  cases lookup r.stock_symbol with
  | none => exact Or.inl rfl
  | some p =>
    dsimp only
    by_cases hc : (r.action = Action.BUY ∧ p ≤ r.bid_price) ∨
        (r.action = Action.SELL ∧ r.bid_price ≤ p)
    · rw [if_pos hc]
      exact Or.inr (Or.inl rfl)
    · rw [if_neg hc]
      by_cases hn : marketCloseCutoff ≤ now
      · rw [if_pos hn]
        exact Or.inr (Or.inr rfl)
      · rw [if_neg hn]
        exact Or.inl rfl

theorem foldl_rowUpd_of_not_mem (now : Nat) (lookup : String → Option ℚ)
    (todo : List TradeRow) (r : TradeRow) (h : ∀ t ∈ todo, t.id ≠ r.id) :
    todo.foldl (fun x t => rowUpd now lookup t x) r = r := by
  induction todo with
  | nil => rfl
  | cons t ts ih =>
    rw [List.foldl_cons, rowUpd_of_ne now lookup (Ne.symm (h t (by simp)))]
    exact ih fun t ht => h t (by simp [ht])

theorem foldl_rowUpd_decomp (now : Nat) (lookup : String → Option ℚ)
    (l2 l3 : List TradeRow) (r : TradeRow)
    (h1 : ∀ t ∈ l2, t.id ≠ r.id) (h2 : ∀ t ∈ l3, t.id ≠ r.id) :
    (l2 ++ r :: l3).foldl (fun x t => rowUpd now lookup t x) r
      = sweepRow now lookup r := by
  rw [List.foldl_append, foldl_rowUpd_of_not_mem now lookup l2 r h1,
      List.foldl_cons, rowUpd_self]
  exact foldl_rowUpd_of_not_mem now lookup l3 _
    fun t ht => by rw [sweepRow_id]; exact h2 t ht

/-- With distinct primary keys, the sweep acts independently on each row:
it maps every PENDING row through `sweepRow` and leaves the rest alone. -/
theorem update_pending_eq_map (led : Ledger) (now : Nat)
    (lookup : String → Option ℚ) (hwf : ledgerWF led) :
    update_pending_orders led now lookup =
      ⟨led.rows.map (fun r =>
        if r.status = Status.PENDING then sweepRow now lookup r else r)⟩ := by
  have hwf2 : (led.rows.map (fun r => r.id)).Nodup := hwf
  simp only [update_pending_orders]
  rw [foldl_applyPendingUpdate]
  congr 1
  apply List.map_congr_left
  intro r hr
  by_cases hp : r.status = Status.PENDING
  · have hrp : r ∈ led.rows.filter (fun r => r.status = Status.PENDING) :=
      List.mem_filter.mpr ⟨hr, by simp [hp]⟩
    obtain ⟨l2, l3, hdec⟩ := List.append_of_mem hrp
    have hnd : ((led.rows.filter (fun r => r.status = Status.PENDING)).map
        (fun r => r.id)).Nodup :=
      ((List.filter_sublist led.rows).map (fun r => r.id)).nodup hwf2
    rw [hdec, List.map_append, List.map_cons] at hnd
    obtain ⟨-, hnd2, hdisj⟩ := List.nodup_append.mp hnd
    have h1 : ∀ t ∈ l2, t.id ≠ r.id := by
      intro t ht heq
      exact (hdisj (List.mem_map_of_mem (fun r => r.id) ht)) (by simp [heq])
    have h2 : ∀ t ∈ l3, t.id ≠ r.id := by
      intro t ht heq
      exact (List.nodup_cons.mp hnd2).1 (heq ▸ List.mem_map_of_mem (fun r => r.id) ht)
    rw [if_pos hp, hdec]
    exact foldl_rowUpd_decomp now lookup l2 l3 r h1 h2
  · rw [if_neg hp]
    apply foldl_rowUpd_of_not_mem
    intro t ht heq
    have ht' := List.mem_filter.mp ht
    have : t = r := List.inj_on_of_nodup_map hwf2 ht'.1 hr heq
    rw [this] at ht'
    exact hp (by simpa using ht'.2)

theorem map_eraseIdx {α β : Type} (f : α → β) :
    ∀ (l : List α) (i : Nat), (l.eraseIdx i).map f = (l.map f).eraseIdx i
  | [], _ => by simp
  | _ :: _, 0 => by simp [List.eraseIdx]
  | a :: l, (i + 1) => by simp [List.eraseIdx, map_eraseIdx f l i]

/-- C4: a PENDING row whose symbol's price lookup returns `p`, with `p` at or
below the bid for a BUY or at or above the bid for a SELL, is transitioned to
EXECUTED by the sweep, its `price` overwritten with `p` and its `total` with
`p * quantity`. -/
theorem sweep_executes_when_bid_met (led : Ledger) (now : Nat)
    (lookup : String → Option ℚ) (i : Nat) (r : TradeRow) (p : ℚ)
    (hwf : ledgerWF led)
    (hr : led.rows[i]? = some r)
    (hpend : r.status = Status.PENDING)
    (hlkp : lookup r.stock_symbol = some p)
    (hcond : (r.action = Action.BUY ∧ p ≤ r.bid_price) ∨
             (r.action = Action.SELL ∧ r.bid_price ≤ p)) :
    (update_pending_orders led now lookup).rows[i]? =
      some { r with status := Status.EXECUTED, price := p,
                    total := p * (r.quantity : ℚ) } := by
  rw [update_pending_eq_map led now lookup hwf]
  dsimp only
  rw [List.getElem?_map, hr]
  simp [hpend, sweepRow, hlkp, hcond]

theorem sweep_executes_when_bid_met_witness :
    (update_pending_orders
        ⟨[⟨7, "admin", "NHPC", Action.BUY, 4, 100, 400, 95, Status.PENDING⟩]⟩
        50000 (fun _ => some 94)).rows[0]? =
      some ⟨7, "admin", "NHPC", Action.BUY, 4, 94, 376, 95, Status.EXECUTED⟩ := by
  have h := sweep_executes_when_bid_met
    ⟨[⟨7, "admin", "NHPC", Action.BUY, 4, 100, 400, 95, Status.PENDING⟩]⟩
    50000 (fun _ => some 94) 0
    ⟨7, "admin", "NHPC", Action.BUY, 4, 100, 400, 95, Status.PENDING⟩ 94
    (by decide) (by decide) (by decide) (by decide) (by decide)
  rw [h]
  decide

/-- C5: a PENDING row whose bid condition is not met is cancelled by the sweep
exactly when `now` has reached the market-close cutoff (price and total kept),
and is left entirely unchanged before the cutoff. -/
theorem sweep_cancels_after_cutoff_else_unchanged (led : Ledger) (now : Nat)
    (lookup : String → Option ℚ) (i : Nat) (r : TradeRow) (p : ℚ)
    (hwf : ledgerWF led)
    (hr : led.rows[i]? = some r)
    (hpend : r.status = Status.PENDING)
    (hlkp : lookup r.stock_symbol = some p)
    (hcond : ¬ ((r.action = Action.BUY ∧ p ≤ r.bid_price) ∨
                (r.action = Action.SELL ∧ r.bid_price ≤ p))) :
    (update_pending_orders led now lookup).rows[i]? =
      some (if marketCloseCutoff ≤ now
            then { r with status := Status.CANCELLED } else r) ∧
    ({ r with status := Status.CANCELLED } : TradeRow).price = r.price ∧
    ({ r with status := Status.CANCELLED } : TradeRow).total = r.total := by
  refine ⟨?_, rfl, rfl⟩
  rw [update_pending_eq_map led now lookup hwf]
  dsimp only
  rw [List.getElem?_map, hr]
  simp [hpend, sweepRow, hlkp, hcond]

theorem sweep_cancels_after_cutoff_else_unchanged_witness :
    (update_pending_orders
        ⟨[⟨3, "admin", "TCS", Action.BUY, 2, 100, 200, 95, Status.PENDING⟩]⟩
        56000 (fun _ => some 99)).rows[0]? =
      some ⟨3, "admin", "TCS", Action.BUY, 2, 100, 200, 95, Status.CANCELLED⟩ := by
  have h := (sweep_cancels_after_cutoff_else_unchanged
    ⟨[⟨3, "admin", "TCS", Action.BUY, 2, 100, 200, 95, Status.PENDING⟩]⟩
    56000 (fun _ => some 99) 0
    ⟨3, "admin", "TCS", Action.BUY, 2, 100, 200, 95, Status.PENDING⟩ 99
    (by decide) (by decide) (by decide) (by decide) (by decide)).1
  rw [h]
  decide

/-- C9: a PENDING row whose price lookup is unavailable is left exactly as it
was by the sweep, and the sweep of the ledger without that row produces, for
every other row, the same result (the swept table minus the skipped row). -/
theorem sweep_unavailable_row_isolated (led : Ledger) (now : Nat)
    (lookup : String → Option ℚ) (j : Nat) (u : TradeRow)
    (hwf : ledgerWF led)
    (hu : led.rows[j]? = some u)
    (hpend : u.status = Status.PENDING)
    (hun : lookup u.stock_symbol = none) :
    (update_pending_orders led now lookup).rows[j]? = some u ∧
    (update_pending_orders ⟨led.rows.eraseIdx j⟩ now lookup).rows =
      ((update_pending_orders led now lookup).rows).eraseIdx j := by
  have hwf2 : ledgerWF ⟨led.rows.eraseIdx j⟩ := by
    have hsub : ((led.rows.eraseIdx j).map (fun r => r.id)).Sublist
        (led.rows.map (fun r => r.id)) := (led.rows.eraseIdx_sublist j).map _
    exact hsub.nodup hwf
  constructor
  · rw [update_pending_eq_map led now lookup hwf]
    dsimp only
    rw [List.getElem?_map, hu]
    simp [hpend, sweepRow, hun]
  · rw [update_pending_eq_map led now lookup hwf,
        update_pending_eq_map _ now lookup hwf2]
    exact map_eraseIdx _ led.rows j

theorem sweep_unavailable_row_isolated_witness :
    (update_pending_orders
        ⟨[⟨1, "admin", "TCS", Action.SELL, 2, 90, 180, 90, Status.PENDING⟩,
          ⟨2, "admin", "INFY", Action.BUY, 3, 50, 150, 55, Status.PENDING⟩]⟩
        56000 (fun s => if s = "INFY" then some 52 else none)).rows[0]? =
      some ⟨1, "admin", "TCS", Action.SELL, 2, 90, 180, 90, Status.PENDING⟩ ∧
    (update_pending_orders
        ⟨[⟨2, "admin", "INFY", Action.BUY, 3, 50, 150, 55, Status.PENDING⟩]⟩
        56000 (fun s => if s = "INFY" then some 52 else none)).rows =
      ((update_pending_orders
        ⟨[⟨1, "admin", "TCS", Action.SELL, 2, 90, 180, 90, Status.PENDING⟩,
          ⟨2, "admin", "INFY", Action.BUY, 3, 50, 150, 55, Status.PENDING⟩]⟩
        56000 (fun s => if s = "INFY" then some 52 else none)).rows).eraseIdx 0 :=
  sweep_unavailable_row_isolated
    ⟨[⟨1, "admin", "TCS", Action.SELL, 2, 90, 180, 90, Status.PENDING⟩,
      ⟨2, "admin", "INFY", Action.BUY, 3, 50, 150, 55, Status.PENDING⟩]⟩
    56000 (fun s => if s = "INFY" then some 52 else none) 0
    ⟨1, "admin", "TCS", Action.SELL, 2, 90, 180, 90, Status.PENDING⟩
    (by decide) (by decide) (by decide) (by decide)

theorem le_foldr_max : ∀ (l : List Nat), ∀ x ∈ l, x ≤ l.foldr max 0
  | a :: l, x, hx => by
    rcases List.mem_cons.mp hx with h | h
    · rw [h, List.foldr_cons]
      exact Nat.le_max_left _ _
    · exact le_trans (le_foldr_max l x h) (Nat.le_max_right _ _)

theorem id_lt_nextId (led : Ledger) (r : TradeRow) (hr : r ∈ led.rows) :
    r.id < nextId led :=
  Nat.lt_succ_of_le
    (le_foldr_max (led.rows.map (fun r => r.id)) r.id (List.mem_map_of_mem _ hr))

/-- Whenever `record_trade` reports success, the new ledger is the old one
with exactly the returned row appended, and that row carries the fresh id. -/
theorem record_trade_ok_shape (led : Ledger) (u s : String) (a : Action)
    (qin : IntInput) (pin : NumInput) (bin : BidInput) (led2 : Ledger)
    (row : TradeRow)
    (h : record_trade led u s a qin pin bin = TradeOutcome.ok led2 row) :
    led2 = ⟨led.rows ++ [row]⟩ ∧ row.id = nextId led := by
  simp only [record_trade] at h
  repeat' split at h
  all_goals first
    | (cases h; done)
    | (simp only [insertTrade] at h; cases h; exact ⟨rfl, rfl⟩)

theorem submit_preserves_wf (led : Ledger) (u s : String) (a : Action)
    (qin : IntInput) (pin : NumInput) (bin : BidInput) (led2 : Ledger)
    (row : TradeRow) (hwf : ledgerWF led)
    (h : record_trade led u s a qin pin bin = TradeOutcome.ok led2 row) :
    ledgerWF led2 := by
  obtain ⟨hled, hid⟩ := record_trade_ok_shape led u s a qin pin bin led2 row h
  have hwf2 : (led.rows.map (fun r => r.id)).Nodup := hwf
  subst hled
  show ((led.rows ++ [row]).map (fun r => r.id)).Nodup
  rw [List.map_append]
  refine hwf2.append (by simp) ?_
  intro x hx hx2
  rcases List.mem_map.mp hx with ⟨t, ht, rfl⟩
  have : t.id < nextId led := id_lt_nextId led t ht
  simp only [List.map_cons, List.map_nil, List.mem_singleton] at hx2
  rw [hx2, hid] at this
  exact lt_irrefl _ this

theorem find?_append_some {α : Type} (p : α → Bool) :
    ∀ (l1 l2 : List α) (a : α), l1.find? p = some a → (l1 ++ l2).find? p = some a
  | [], _, a, h => by simp [List.find?] at h
  | b :: l1, l2, a, h => by
    rw [List.cons_append]
    cases hpb : p b
    · rw [List.find?_cons_of_neg _ (by simp [hpb])] at h ⊢
      exact find?_append_some p l1 l2 a h
    · rw [List.find?_cons_of_pos _ hpb] at h ⊢
      exact h

theorem find?_map_id_pred (n : Nat) (f : TradeRow → TradeRow)
    (hid : ∀ x, (f x).id = x.id) :
    ∀ (l : List TradeRow),
      (l.map f).find? (fun r => r.id = n) = (l.find? (fun r => r.id = n)).map f
  | [] => rfl
  | a :: l => by
    rw [List.map_cons]
    by_cases ha : a.id = n
    · have hfa : (f a).id = n := by rw [hid a]; exact ha
      rw [List.find?_cons_of_pos _ (by simp [hfa]),
          List.find?_cons_of_pos _ (by simp [ha])]
      rfl
    · have hfa : ¬ (f a).id = n := by rw [hid a]; exact ha
      rw [List.find?_cons_of_neg _ (by simp [hfa]),
          List.find?_cons_of_neg _ (by simp [ha])]
      exact find?_map_id_pred n f hid l

/-- How one operation moves the row with a given id: it stays put, or it was
PENDING and a sweep moved it to a terminal status; well-formedness persists. -/
theorem applyOp_step (led : Ledger) (op : Op) (id : Nat) (r : TradeRow)
    (hwf : ledgerWF led) (hf : findRow led id = some r) :
    ledgerWF (applyOp led op) ∧
    ∃ r2, findRow (applyOp led op) id = some r2 ∧
      (r2 = r ∨ (r.status = Status.PENDING ∧
        (r2.status = Status.EXECUTED ∨ r2.status = Status.CANCELLED))) := by
  cases op with
  | submit u s a qin pin bin =>
    cases hrec : record_trade led u s a qin pin bin with
    | ok led2 row =>
      obtain ⟨hled, -⟩ := record_trade_ok_shape led u s a qin pin bin led2 row hrec
      refine ⟨?_, r, ?_, Or.inl rfl⟩
      · simpa only [applyOp, ledgerAfter, hrec] using
          submit_preserves_wf led u s a qin pin bin led2 row hwf hrec
      · simp only [applyOp, ledgerAfter, hrec, hled, findRow]
        exact find?_append_some _ led.rows [row] r hf
    | err e =>
      exact ⟨by simpa only [applyOp, ledgerAfter, hrec] using hwf,
        r, by simpa only [applyOp, ledgerAfter, hrec] using hf, Or.inl rfl⟩
    | crash =>
      exact ⟨by simpa only [applyOp, ledgerAfter, hrec] using hwf,
        r, by simpa only [applyOp, ledgerAfter, hrec] using hf, Or.inl rfl⟩
  | sweep now lookup =>
    have hmap := update_pending_eq_map led now lookup hwf
    have hidp : ∀ x : TradeRow,
        ((if x.status = Status.PENDING then sweepRow now lookup x else x) : TradeRow).id
          = x.id := by
      intro x
      split
      · exact sweepRow_id now lookup x
      · rfl
    have hids : ((applyOp led (Op.sweep now lookup)).rows.map (fun r => r.id))
        = led.rows.map (fun r => r.id) := by
      simp only [applyOp, hmap, List.map_map]
      exact List.map_congr_left fun x _ => hidp x
    constructor
    · show ((applyOp led (Op.sweep now lookup)).rows.map (fun r => r.id)).Nodup
      rw [hids]
      exact hwf
    · refine ⟨if r.status = Status.PENDING then sweepRow now lookup r else r, ?_, ?_⟩
      · simp only [applyOp, hmap, findRow]
        rw [find?_map_id_pred id _ hidp led.rows]
        simp only [findRow] at hf
        rw [hf]
        rfl
      · by_cases hp : r.status = Status.PENDING
        · rw [if_pos hp]
          rcases sweepRow_cases now lookup r with h | h
          · exact Or.inl h
          · exact Or.inr ⟨hp, h⟩
        · exact Or.inl (if_neg hp)

/-- Multi-step version of `applyOp_step` over any operation sequence. -/
theorem applyOps_step (ops : List Op) (led : Ledger) (id : Nat) (r : TradeRow)
    (hwf : ledgerWF led) (hf : findRow led id = some r) :
    ledgerWF (applyOps led ops) ∧
    ∃ r2, findRow (applyOps led ops) id = some r2 ∧
      (r2 = r ∨ (r.status = Status.PENDING ∧
        (r2.status = Status.EXECUTED ∨ r2.status = Status.CANCELLED))) := by
  induction ops generalizing led r with
  | nil => exact ⟨hwf, r, hf, Or.inl rfl⟩
  | cons op ops ih =>
    obtain ⟨hwf1, r1, hf1, hr1⟩ := applyOp_step led op id r hwf hf
    obtain ⟨hwfn, r2, hf2, hr2⟩ := ih (applyOp led op) r1 hwf1 hf1
    refine ⟨hwfn, r2, hf2, ?_⟩
    rcases hr1 with rfl | ⟨hp1, ht1⟩
    · exact hr2
    · rcases hr2 with rfl | ⟨hp2, ht2⟩
      · exact Or.inr ⟨hp1, ht1⟩
      · rcases ht1 with h | h <;> rw [h] at hp2 <;> cases hp2

/-- C6: over any sequence of submit and sweep operations, the row stored under
a given id never changes once its status is EXECUTED or CANCELLED, and any
change at all happens to a PENDING row and lands in a terminal status — so
status transitions are exactly PENDING → {EXECUTED, CANCELLED}, never
reversed and never re-entered. -/
theorem status_transitions_monotone (led : Ledger) (ops : List Op) (id : Nat)
    (r r2 : TradeRow) (hwf : ledgerWF led)
    (h1 : findRow led id = some r)
    (h2 : findRow (applyOps led ops) id = some r2) :
    (r.status ≠ Status.PENDING → r2 = r) ∧
    (r2 ≠ r → r.status = Status.PENDING ∧
      (r2.status = Status.EXECUTED ∨ r2.status = Status.CANCELLED)) := by
  obtain ⟨-, r3, hf3, hr3⟩ := applyOps_step ops led id r hwf h1
  rw [h2] at hf3
  cases hf3
  constructor
  · intro hnp
    rcases hr3 with rfl | ⟨hp, -⟩
    · rfl
    · exact absurd hp hnp
  · intro hne
    rcases hr3 with rfl | h
    · exact absurd rfl hne
    · exact h

theorem status_transitions_monotone_witness :
    (⟨1, "admin", "TCS", Action.BUY, 2, 100, 200, 95,
        Status.PENDING⟩ : TradeRow).status = Status.PENDING ∧
    ((⟨1, "admin", "TCS", Action.BUY, 2, 94, 188, 95,
        Status.EXECUTED⟩ : TradeRow).status = Status.EXECUTED ∨
     (⟨1, "admin", "TCS", Action.BUY, 2, 94, 188, 95,
        Status.EXECUTED⟩ : TradeRow).status = Status.CANCELLED) :=
  (status_transitions_monotone
    ⟨[⟨1, "admin", "TCS", Action.BUY, 2, 100, 200, 95, Status.PENDING⟩]⟩
    [Op.sweep 50000 (fun _ => some 94)] 1
    ⟨1, "admin", "TCS", Action.BUY, 2, 100, 200, 95, Status.PENDING⟩
    ⟨1, "admin", "TCS", Action.BUY, 2, 94, 188, 95, Status.EXECUTED⟩
    (by decide) (by decide) (by decide)).2 (by decide)

/-- The bid price actually used by `record_trade`: the parsed value, or the
reference price when the bid was omitted (`None`). -/
def effectiveBid (bin : BidInput) (p : ℚ) : ℚ :=
  match bin with
  | BidInput.val b => b
  | _ => p

theorem record_trade_ok_row (led : Ledger) (u s : String) (a : Action)
    (q : Int) (p : ℚ) (bin : BidInput) (led2 : Ledger) (r : TradeRow)
    (h : record_trade led u s a (IntInput.val q) (NumInput.val p) bin
          = TradeOutcome.ok led2 r) :
    r = mkRow led u s a q p (effectiveBid bin p) := by
  cases bin
  all_goals simp only [record_trade] at h
  all_goals simp only [effectiveBid]
  all_goals repeat' split at h
  all_goals first
    | (cases h; done)
    | (simp only [insertTrade] at h; cases h; rfl)

/-- C3: every successful submission stores `total = quantity * referencePrice`
and gets status EXECUTED exactly when `|referencePrice - bidPrice| < 0.01`,
PENDING otherwise. -/
theorem record_trade_status_rule (led : Ledger) (u s : String) (a : Action)
    (q : Int) (p : ℚ) (bin : BidInput) (led2 : Ledger) (r : TradeRow)
    (hok : record_trade led u s a (IntInput.val q) (NumInput.val p) bin
            = TradeOutcome.ok led2 r) :
    r.price = p ∧ r.quantity = q ∧ r.bid_price = effectiveBid bin p ∧
    r.total = (q : ℚ) * p ∧
    (r.status = Status.EXECUTED ↔ |p - effectiveBid bin p| < 1 / 100) ∧
    (r.status = Status.PENDING ↔ ¬ |p - effectiveBid bin p| < 1 / 100) := by
  have hr := record_trade_ok_row led u s a q p bin led2 r hok
  subst hr
  refine ⟨rfl, rfl, rfl, rfl, ?_, ?_⟩ <;>
    by_cases hb : |p - effectiveBid bin p| < 1 / 100 <;>
      simp [mkRow, hb]

theorem record_trade_status_rule_witness :
    ((mkRow ⟨[]⟩ "admin" "TCS" Action.BUY 1 100 95).status = Status.EXECUTED
      ↔ |(100 : ℚ) - effectiveBid (BidInput.val 95) 100| < 1 / 100) ∧
    (mkRow ⟨[]⟩ "admin" "TCS" Action.BUY 1 100 95).total = (1 : ℚ) * 100 := by
  have h := record_trade_status_rule ⟨[]⟩ "admin" "TCS" Action.BUY 1 100
    (BidInput.val 95) ⟨[mkRow ⟨[]⟩ "admin" "TCS" Action.BUY 1 100 95]⟩
    (mkRow ⟨[]⟩ "admin" "TCS" Action.BUY 1 100 95) (by decide)
  exact ⟨h.2.2.2.2.1, h.2.2.2.1⟩

/-- C10: when the bid price is omitted (`None`), `record_trade` defaults it to
the reference price: the call behaves exactly like one with `bid = price`, and
a successful submission stores `bidPrice = price` and status EXECUTED. -/
theorem missing_bid_defaults_to_price (led : Ledger) (u s : String) (a : Action)
    (q : Int) (p : ℚ) (led2 : Ledger) (r : TradeRow)
    (hok : record_trade led u s a (IntInput.val q) (NumInput.val p)
            BidInput.absent = TradeOutcome.ok led2 r) :
    r.bid_price = r.price ∧ r.price = p ∧ r.status = Status.EXECUTED ∧
    record_trade led u s a (IntInput.val q) (NumInput.val p) BidInput.absent
      = record_trade led u s a (IntInput.val q) (NumInput.val p)
          (BidInput.val p) := by
  have hr := record_trade_ok_row led u s a q p BidInput.absent led2 r hok
  subst hr
  refine ⟨rfl, rfl, ?_, rfl⟩
  have habs : |p - effectiveBid BidInput.absent p| < 1 / 100 := by
    simp only [effectiveBid]
    rw [sub_self, abs_zero]
    norm_num
  simp only [mkRow]
  rw [if_pos habs]

theorem missing_bid_defaults_to_price_witness :
    (mkRow ⟨[]⟩ "admin" "TCS" Action.BUY 1 100 100).bid_price
      = (mkRow ⟨[]⟩ "admin" "TCS" Action.BUY 1 100 100).price ∧
    (mkRow ⟨[]⟩ "admin" "TCS" Action.BUY 1 100 100).status = Status.EXECUTED := by
  have h := missing_bid_defaults_to_price ⟨[]⟩ "admin" "TCS" Action.BUY 1 100
    ⟨[mkRow ⟨[]⟩ "admin" "TCS" Action.BUY 1 100 100]⟩
    (mkRow ⟨[]⟩ "admin" "TCS" Action.BUY 1 100 100) (by decide)
  exact ⟨h.1, h.2.2.1⟩

/-- C8 (counterexample): a BUY with a negative reference price and a negative
bid price is accepted and appended to the ledger, so the claim that a negative
price is rejected with `InvalidInput` is false on the code. -/
theorem negative_price_accepted :
    record_trade ⟨[]⟩ "admin" "TCS" Action.BUY (IntInput.val 2)
        (NumInput.val (-5)) (BidInput.val (-5)) =
      TradeOutcome.ok
        ⟨[⟨1, "admin", "TCS", Action.BUY, 2, -5, -10, -5, Status.EXECUTED⟩]⟩
        ⟨1, "admin", "TCS", Action.BUY, 2, -5, -10, -5, Status.EXECUTED⟩ := by
  decide

/-- C8 (amended): `record_trade` rejects with `InvalidInput`, appending
nothing, whenever `quantity` fails to parse as an integer or is not positive,
or `referencePrice` or `bidPrice` fails to parse as a number; the sign of the
prices is not checked. -/
theorem record_trade_invalid_input (led : Ledger) (u s : String) (a : Action)
    (qin : IntInput) (pin : NumInput) (bin : BidInput)
    (hbad : qin = IntInput.malformed ∨
            (∃ q, qin = IntInput.val q ∧ q ≤ 0) ∨
            pin = NumInput.malformed ∨ bin = BidInput.malformed) :
    record_trade led u s a qin pin bin
      = TradeOutcome.err TradeError.InvalidInput ∧
    ledgerAfter led (record_trade led u s a qin pin bin) = led := by
  have hmain : record_trade led u s a qin pin bin
      = TradeOutcome.err TradeError.InvalidInput := by
    rcases hbad with rfl | ⟨q, rfl, hq⟩ | rfl | rfl
    · rfl
    · cases pin with
      | malformed => rfl
      | val p =>
        cases bin with
        | malformed => rfl
        | absent => simp only [record_trade]; rw [if_pos hq]
        | val b => simp only [record_trade]; rw [if_pos hq]
    · cases qin with
      | malformed => rfl
      | val q => rfl
    · cases qin with
      | malformed => rfl
      | val q =>
        cases pin with
        | malformed => rfl
        | val p => rfl
  exact ⟨hmain, by rw [hmain]; rfl⟩

theorem record_trade_invalid_input_witness :
    record_trade ⟨[]⟩ "admin" "TCS" Action.BUY (IntInput.val 0)
        (NumInput.val 100) (BidInput.val 100)
      = TradeOutcome.err TradeError.InvalidInput ∧
    ledgerAfter ⟨[]⟩ (record_trade ⟨[]⟩ "admin" "TCS" Action.BUY
        (IntInput.val 0) (NumInput.val 100) (BidInput.val 100)) = ⟨[]⟩ :=
  record_trade_invalid_input ⟨[]⟩ "admin" "TCS" Action.BUY (IntInput.val 0)
    (NumInput.val 100) (BidInput.val 100) (Or.inr (Or.inl ⟨0, rfl, by decide⟩))

/-- C2 (code divergence): a SELL by a user with no EXECUTED rows — empty
history, or PENDING rows only — hits the column-less empty holdings DataFrame
and raises an uncaught `KeyError` instead of the structured
`InsufficientHoldings` rejection (no row is appended either way). -/
theorem sell_without_executed_history_crashes :
    record_trade ⟨[]⟩ "admin" "TCS" Action.SELL (IntInput.val 1)
        (NumInput.val 100) (BidInput.val 100) = TradeOutcome.crash ∧
    record_trade ⟨[⟨1, "admin", "TCS", Action.BUY, 5, 100, 500, 90,
          Status.PENDING⟩]⟩ "admin" "TCS" Action.SELL (IntInput.val 1)
        (NumInput.val 100) (BidInput.val 100) = TradeOutcome.crash := by
  decide

/-- C7 (counterexample): the sweep's `UPDATE ... WHERE id=?` is a silent no-op
returning zero affected rows when the id is absent — no error of any kind —
and when the id exists it rewrites the row without any check that the row is
PENDING. -/
theorem sqlUpdate_not_fail_loudly :
    sqlUpdate [⟨5, "admin", "TCS", Action.BUY, 1, 100, 100, 100,
        Status.EXECUTED⟩] 99 (fun r => { r with status := Status.CANCELLED })
      = ([⟨5, "admin", "TCS", Action.BUY, 1, 100, 100, 100,
          Status.EXECUTED⟩], 0) ∧
    sqlUpdate [⟨5, "admin", "TCS", Action.BUY, 1, 100, 100, 100,
        Status.EXECUTED⟩] 5 (fun r => { r with status := Status.CANCELLED })
      = ([⟨5, "admin", "TCS", Action.BUY, 1, 100, 100, 100,
          Status.CANCELLED⟩], 1) := by
  decide

/-- C7 (amended): when the target id does not exist, the ledger update
affects zero rows and returns normally with the table unchanged — a silent
no-op, not a loud failure; the sweep never inspects the affected-row count. -/
theorem sqlUpdate_absent_id_noop (rows : List TradeRow) (id : Nat)
    (f : TradeRow → TradeRow) (habs : ∀ r ∈ rows, r.id ≠ id) :
    sqlUpdate rows id f = (rows, 0) := by
  have h1 : rows.map (fun r => if r.id = id then f r else r) = rows := by
    have := List.map_congr_left
      (fun r hr => by rw [if_neg (habs r hr)] : ∀ r ∈ rows,
        (if r.id = id then f r else r) = (fun r => r) r)
    rw [this]
    exact List.map_id' rows
  have h2 : rows.filter (fun r => r.id = id) = [] := by
    rw [List.filter_eq_nil_iff]
    intro a ha
    simp [habs a ha]
  rw [sqlUpdate, h1, h2]
  rfl

theorem sqlUpdate_absent_id_noop_witness :
    sqlUpdate [⟨5, "admin", "TCS", Action.BUY, 1, 100, 100, 100,
        Status.EXECUTED⟩] 99 (fun r => { r with status := Status.CANCELLED })
      = ([⟨5, "admin", "TCS", Action.BUY, 1, 100, 100, 100,
          Status.EXECUTED⟩], 0) :=
  sqlUpdate_absent_id_noop
    [⟨5, "admin", "TCS", Action.BUY, 1, 100, 100, 100, Status.EXECUTED⟩] 99
    (fun r => { r with status := Status.CANCELLED }) (by decide)

/-- The executed slice of the user's transaction DataFrame (`df_exec`). -/
def dfExecOf (led : Ledger) (u : String) : List TradeRow :=
  (fetch_transactions led u).filter (fun r => r.status = Status.EXECUTED)

/-- The group keys of the `groupby("stock_symbol")`. -/
def symbolsOf (led : Ledger) (u : String) : List String :=
  ((dfExecOf led u).map (fun r => r.stock_symbol)).dedup

theorem fetch_holdings_cases (led : Ledger) (u : String) :
    fetch_holdings led u = none ∨
    fetch_holdings led u
      = some ((symbolsOf led u).map (holdingFor (dfExecOf led u))) := by
  unfold fetch_holdings symbolsOf dfExecOf
  dsimp only
  split
  · exact Or.inl rfl
  · split
    · exact Or.inl rfl
    · exact Or.inr rfl

theorem fetch_holdings_nonempty (led : Ledger) (u : String)
    (hne : fetch_holdings led u ≠ none) :
    (fetch_transactions led u).isEmpty = false ∧
    (dfExecOf led u).isEmpty = false := by
  unfold fetch_holdings at hne
  dsimp only at hne
  constructor
  · cases hb : (fetch_transactions led u).isEmpty
    · rfl
    · exfalso
      simp [hb] at hne
  · cases hb : (dfExecOf led u).isEmpty
    · rfl
    · exfalso
      unfold dfExecOf at hb
      simp [hb] at hne

theorem fetch_holdings_some_of_nonempty (led : Ledger) (u : String)
    (h1 : (fetch_transactions led u).isEmpty = false)
    (h2 : (dfExecOf led u).isEmpty = false) :
    fetch_holdings led u
      = some ((symbolsOf led u).map (holdingFor (dfExecOf led u))) := by
  unfold dfExecOf at h2
  unfold fetch_holdings symbolsOf dfExecOf
  dsimp only
  rw [h1, h2]
  simp

theorem holdingFor_symbol (xs : List TradeRow) (sym : String) :
    (holdingFor xs sym).stock_symbol = sym := rfl

theorem find?_map_holdingFor (xs : List TradeRow) (sym : String) :
    ∀ (syms : List String), sym ∈ syms →
      (syms.map (holdingFor xs)).find? (fun h => h.stock_symbol = sym)
        = some (holdingFor xs sym)
  | s :: syms, hmem => by
    rw [List.map_cons]
    by_cases hs : s = sym
    · rw [List.find?_cons_of_pos _ (by simp [holdingFor_symbol, hs]), hs]
    · rw [List.find?_cons_of_neg _ (by simp [holdingFor_symbol, hs])]
      exact find?_map_holdingFor xs sym syms
        ((List.mem_cons.mp hmem).resolve_left fun hh => hs hh.symm)

theorem find?_map_holdingFor_mem (xs : List TradeRow) (sym : String)
    (syms : List String) (h : Holding)
    (hf : (syms.map (holdingFor xs)).find? (fun h => h.stock_symbol = sym)
            = some h) :
    sym ∈ syms ∧ h = holdingFor xs sym := by
  have hpred := List.find?_some hf
  have hmem := List.mem_of_find?_eq_some hf
  rcases List.mem_map.mp hmem with ⟨s, hs, rfl⟩
  have hsym : s = sym := by simpa [holdingFor_symbol] using hpred
  subst hsym
  exact ⟨hs, rfl⟩

theorem dfExecOf_perm (led : Ledger) (u : String) :
    List.Perm (dfExecOf led u)
      (led.rows.filter (fun r => r.username = u ∧ r.status = Status.EXECUTED)) := by
  unfold dfExecOf fetch_transactions
  have h1 := (List.reverse_perm (led.rows.filter (fun r => r.username = u))).filter
    (fun r => decide (r.status = Status.EXECUTED))
  refine h1.trans ?_
  rw [List.filter_filter]
  have h2 : led.rows.filter
      (fun r => decide (r.status = Status.EXECUTED) && decide (r.username = u))
      = led.rows.filter
          (fun r => decide (r.username = u ∧ r.status = Status.EXECUTED)) :=
    List.filter_congr (fun r _ => by
      simp only [← Bool.decide_and, decide_eq_decide]
      tauto)
  rw [h2]

theorem x_perm_execRows (led : Ledger) (u sym : String) :
    List.Perm ((dfExecOf led u).filter (fun r => r.stock_symbol = sym))
      (execRows led u sym) := by
  have h1 := (dfExecOf_perm led u).filter (fun r => decide (r.stock_symbol = sym))
  refine h1.trans ?_
  rw [List.filter_filter]
  have h2 : led.rows.filter
      (fun r => decide (r.stock_symbol = sym)
                  && decide (r.username = u ∧ r.status = Status.EXECUTED))
      = led.rows.filter (fun r => decide (r.username = u
          ∧ r.status = Status.EXECUTED ∧ r.stock_symbol = sym)) :=
    List.filter_congr (fun r _ => by
      simp only [← Bool.decide_and, decide_eq_decide]
      tauto)
  rw [h2]
  exact List.Perm.refl _

theorem holdingFor_dfExecOf_eq (led : Ledger) (u sym : String) :
    holdingFor (dfExecOf led u) sym =
      ⟨sym, execSignedQty led u sym,
       if execBuyQty led u sym = 0 then 0
       else execBuyCost led u sym / (execBuyQty led u sym : ℚ)⟩ := by
  have hx := x_perm_execRows led u sym
  have hb := hx.filter (fun r => decide (r.action = Action.BUY))
  have hq : (((dfExecOf led u).filter (fun r => r.stock_symbol = sym)).map
      qty_signed).sum = execSignedQty led u sym := (hx.map qty_signed).sum_eq
  have hbq : ((((dfExecOf led u).filter (fun r => r.stock_symbol = sym)).filter
      (fun r => r.action = Action.BUY)).map (fun r => r.quantity)).sum
      = execBuyQty led u sym := (hb.map (fun r => r.quantity)).sum_eq
  have hbc : ((((dfExecOf led u).filter (fun r => r.stock_symbol = sym)).filter
      (fun r => r.action = Action.BUY)).map
        (fun r => (r.quantity : ℚ) * r.price)).sum
      = execBuyCost led u sym :=
    (hb.map (fun r => (r.quantity : ℚ) * r.price)).sum_eq
  simp only [holdingFor]
  rw [hq, hbq, hbc]
  by_cases h0 : execBuyQty led u sym = 0 <;> simp [h0]

/-- C1: every holdings row `fetch_holdings` reports carries the signed BUY/SELL
quantity sum over the user's EXECUTED rows of that symbol (negative values
unclamped) and the BUY-quantity-weighted average price (0 when the BUY
quantity sum is zero), and any reordering of the ledger rows reports the very
same holdings row. -/
theorem fetch_holdings_correct (led led2 : Ledger) (u sym : String) (h : Holding)
    (hperm : List.Perm led.rows led2.rows)
    (hfind : holdingsMap led u sym = some h) :
    h.stock_symbol = sym ∧
    h.quantity = execSignedQty led u sym ∧
    h.avgPrice = (if execBuyQty led u sym = 0 then 0
                  else execBuyCost led u sym / (execBuyQty led u sym : ℚ)) ∧
    holdingsMap led2 u sym = some h := by
  rcases fetch_holdings_cases led u with hno | hyes
  · rw [holdingsMap, hno] at hfind
    cases hfind
  · rw [holdingsMap, hyes] at hfind
    simp only [Option.getD_some] at hfind
    obtain ⟨hmem, rfl⟩ :=
      find?_map_holdingFor_mem (dfExecOf led u) sym (symbolsOf led u) h hfind
    have hfUE := hperm.filter
      (fun r => decide (r.username = u ∧ r.status = Status.EXECUTED))
    have hde : List.Perm (dfExecOf led u) (dfExecOf led2 u) :=
      ((dfExecOf_perm led u).trans hfUE).trans (dfExecOf_perm led2 u).symm
    have hmem2 : sym ∈ symbolsOf led2 u := by
      have : sym ∈ (dfExecOf led u).map (fun r => r.stock_symbol) :=
        List.mem_dedup.mp hmem
      exact List.mem_dedup.mpr
        ((hde.map (fun r => r.stock_symbol)).mem_iff.mp this)
    have hsums : holdingFor (dfExecOf led2 u) sym = holdingFor (dfExecOf led u) sym := by
      rw [holdingFor_dfExecOf_eq led u sym, holdingFor_dfExecOf_eq led2 u sym]
      have e1 : execSignedQty led2 u sym = execSignedQty led u sym := by
        unfold execSignedQty execRows
        exact (((hperm.filter _).map qty_signed).sum_eq).symm
      have e2 : execBuyQty led2 u sym = execBuyQty led u sym := by
        unfold execBuyQty execRows
        exact ((((hperm.filter _).filter _).map (fun r => r.quantity)).sum_eq).symm
      have e3 : execBuyCost led2 u sym = execBuyCost led u sym := by
        unfold execBuyCost execRows
        exact ((((hperm.filter _).filter _).map
          (fun r => (r.quantity : ℚ) * r.price)).sum_eq).symm
      rw [e1, e2, e3]
    have hne : fetch_holdings led u ≠ none := by rw [hyes]; exact Option.some_ne_none _
    obtain ⟨hp1, hp2⟩ := fetch_holdings_nonempty led u hne
    have hdf2 : (fetch_transactions led2 u).isEmpty = false := by
      cases hb : (fetch_transactions led2 u).isEmpty
      · rfl
      · exfalso
        have hlen : (fetch_transactions led u).length
            = (fetch_transactions led2 u).length := by
          unfold fetch_transactions
          rw [List.length_reverse, List.length_reverse]
          exact (hperm.filter (fun r => decide (r.username = u))).length_eq
        have : (fetch_transactions led u).isEmpty = true :=
          List.isEmpty_iff_length_eq_zero.mpr
            (by rw [hlen]; exact List.isEmpty_iff_length_eq_zero.mp hb)
        rw [hp1] at this
        cases this
    have hde2 : (dfExecOf led2 u).isEmpty = false := by
      cases hb : (dfExecOf led2 u).isEmpty
      · rfl
      · exfalso
        have : (dfExecOf led u).isEmpty = true :=
          List.isEmpty_iff_length_eq_zero.mpr
            (by rw [hde.length_eq]; exact List.isEmpty_iff_length_eq_zero.mp hb)
        rw [hp2] at this
        cases this
    have hfh2 : fetch_holdings led2 u
        = some ((symbolsOf led2 u).map (holdingFor (dfExecOf led2 u))) :=
      fetch_holdings_some_of_nonempty led2 u hdf2 hde2
    rw [holdingsMap, hfh2]
    simp only [Option.getD_some]
    rw [find?_map_holdingFor (dfExecOf led2 u) sym (symbolsOf led2 u) hmem2, hsums]
    refine ⟨holdingFor_symbol _ _, ?_, ?_, rfl⟩
    · rw [holdingFor_dfExecOf_eq]
    · rw [holdingFor_dfExecOf_eq]

theorem fetch_holdings_correct_witness :
    (⟨"TCS", 2, 10⟩ : Holding).stock_symbol = "TCS" ∧
    (⟨"TCS", 2, 10⟩ : Holding).quantity =
      execSignedQty ⟨[⟨1, "u", "TCS", Action.BUY, 3, 10, 30, 10, Status.EXECUTED⟩,
                      ⟨2, "u", "TCS", Action.SELL, 1, 12, 12, 12, Status.EXECUTED⟩]⟩
        "u" "TCS" ∧
    (⟨"TCS", 2, 10⟩ : Holding).avgPrice =
      (if execBuyQty ⟨[⟨1, "u", "TCS", Action.BUY, 3, 10, 30, 10, Status.EXECUTED⟩,
                       ⟨2, "u", "TCS", Action.SELL, 1, 12, 12, 12, Status.EXECUTED⟩]⟩
            "u" "TCS" = 0 then 0
       else execBuyCost ⟨[⟨1, "u", "TCS", Action.BUY, 3, 10, 30, 10, Status.EXECUTED⟩,
                          ⟨2, "u", "TCS", Action.SELL, 1, 12, 12, 12, Status.EXECUTED⟩]⟩
              "u" "TCS" /
            (execBuyQty ⟨[⟨1, "u", "TCS", Action.BUY, 3, 10, 30, 10, Status.EXECUTED⟩,
                          ⟨2, "u", "TCS", Action.SELL, 1, 12, 12, 12, Status.EXECUTED⟩]⟩
               "u" "TCS" : ℚ)) ∧
    holdingsMap ⟨[⟨2, "u", "TCS", Action.SELL, 1, 12, 12, 12, Status.EXECUTED⟩,
                  ⟨1, "u", "TCS", Action.BUY, 3, 10, 30, 10, Status.EXECUTED⟩]⟩
      "u" "TCS" = some ⟨"TCS", 2, 10⟩ :=
  fetch_holdings_correct
    ⟨[⟨1, "u", "TCS", Action.BUY, 3, 10, 30, 10, Status.EXECUTED⟩,
      ⟨2, "u", "TCS", Action.SELL, 1, 12, 12, 12, Status.EXECUTED⟩]⟩
    ⟨[⟨2, "u", "TCS", Action.SELL, 1, 12, 12, 12, Status.EXECUTED⟩,
      ⟨1, "u", "TCS", Action.BUY, 3, 10, 30, 10, Status.EXECUTED⟩]⟩
    "u" "TCS" ⟨"TCS", 2, 10⟩ (by decide) (by decide)

end SAS
